import Mathlib

/-!
Verification of the team-membership authorization and mutation engine of the
Express backend (src/services/teams.js), shallowly embedded over an explicit
relational state.  The relational store is modelled as lists of rows for the
four tables the service touches (teams, team_members, role_assignments, users),
together with a logical clock standing for NOW() and a counter standing for the
id generator.  Each service function becomes a Lean function over this state;
fallible operations return Except values carrying the same status codes the
JavaScript code attaches to its thrown errors.  The schema constraints of the
bootstrap SQL that the queries rely on (the UNIQUE / PRIMARY KEY constraint on
team_members(team_id, user_id), NOT NULL, and the foreign keys to teams and
users) are modelled inside the insert/upsert operations, since the service's
ON CONFLICT clauses and plain INSERTs depend on them.
-/

/-- Distinct error conditions of the service layer.  Each constructor stands
for one distinct error message thrown by the source code (for `api` errors,
which carry an HTTP status), or for one storage-level error condition raised
by the database constraints (for `storage` errors, which carry no status and
surface to the HTTP layer as internal errors). -/
inductive ErrKind where
  | unauthorized
  | onlyAdminsCreate
  | forbidden
  | nameTooShort
  | teamIdRequired
  | teamUserIdRequired
  | teamUserRoleRequired
  | invalidRole
  | teamNotFound
  | teamNotFoundOrArchived
  | noValidFields
  | membershipNotFound
  | uniqueViolation
  | fkTeamViolation
  | fkUserViolation
  | nullUserViolation
  | returningRowMissing
  deriving DecidableEq, Repr

/-- An error as observed by the caller of the service: either an application
error thrown with an attached HTTP status (`e.status` in the source), or a
storage error propagated from the database driver, which has no status. -/
inductive JsErr where
  | api (status : Nat) (kind : ErrKind)
  | storage (kind : ErrKind)
  deriving DecidableEq, Repr

/-- Decidable equality of Except results, so that concrete runs of the
fallible operations can be checked by computation. -/
instance {ε : Type} {α : Type} [DecidableEq ε] [DecidableEq α] : DecidableEq (Except ε α) := fun x y =>
  match x, y with
  | .ok a, .ok b =>
    if h : a = b then isTrue (by rw [h]) else isFalse (fun hc => by cases hc; exact h rfl)
  | .error a, .error b =>
    if h : a = b then isTrue (by rw [h]) else isFalse (fun hc => by cases hc; exact h rfl)
  | .ok _, .error _ => isFalse (fun hc => by cases hc)
  | .error _, .ok _ => isFalse (fun hc => by cases hc)

/-- A JavaScript-ish id value: `none` models null/undefined, `some s` a string.
The service treats empty or absent ids as falsy. -/
abbrev Jid := Option String

/-- ASCII lowercasing, modelling String.prototype.toLowerCase as used on the
role strings of this service; written over the character list so that it
reduces by kernel computation. -/
def jsToLower (s : String) : String :=
  String.mk (s.data.map Char.toLower)

/-- Whitespace trimming, modelling String.prototype.trim as used on team
names; written over the character list so that it reduces by kernel
computation. -/
def jsTrim (s : String) : String :=
  String.mk (((s.data.dropWhile Char.isWhitespace).reverse.dropWhile Char.isWhitespace).reverse)

/-- JavaScript truthiness of an id value: null/undefined and the empty string
are falsy. -/
def truthy : Jid → Bool
  | some s => !(s == "")
  | none => false

/-- The decoded token claims attached to a request (`req.user` in the source):
subject id and global role, either of which may be absent. -/
structure Actor where
  sub : Jid
  role : Option String
  deriving DecidableEq, Repr

/-- A row of the `teams` table. -/
structure TeamRow where
  id : String
  name : String
  description : Option String
  created_at : Nat
  updated_at : Nat
  archived_at : Option Nat
  deriving DecidableEq, Repr

/-- A row of the `team_members` table.  The schema enforces a uniqueness
constraint on (team_id, user_id) over all rows, active or soft-deleted. -/
structure MemberRow where
  team_id : String
  user_id : String
  role : String
  created_at : Nat
  updated_at : Nat
  removed_at : Option Nat
  deriving DecidableEq, Repr

/-- A row of the `role_assignments` table (no uniqueness constraint on
(user_id, team_id): repeated grants accumulate as separate rows). -/
structure AssignmentRow where
  id : String
  user_id : String
  team_id : Option String
  role_name : String
  created_at : Nat
  revoked_at : Option Nat
  deriving DecidableEq, Repr

/-- A row of the `users` table, restricted to the columns the service reads. -/
structure UserRow where
  id : String
  name : String
  email : String
  deriving DecidableEq, Repr

/-- The relational state the service operates on.  `now` stands for the value
of NOW() during the current statement and `nextId` feeds the id generator for
newly inserted teams. -/
structure DB where
  teams : List TeamRow
  team_members : List MemberRow
  role_assignments : List AssignmentRow
  users : List UserRow
  now : Nat
  nextId : Nat
  deriving DecidableEq, Repr

/-- Identity resolution (`user && user.role && typeof user.role === 'string'
&& user.role.toLowerCase() === 'admin'` in the source): true iff the caller is
present and its global role field, case-insensitively, equals "admin".  An
absent actor, an absent role and the falsy empty-string role all resolve to
false. -/
def isGlobalAdmin : Option Actor → Bool
  | some a =>
    match a.role with
    | some r => !(r == "") && jsToLower r == "admin"
    | none => false
  | none => false

/-- The optional-chained subject id `actor?.sub` of the source. -/
def actorSub : Option Actor → Jid
  | some a => a.sub
  | none => none

/-- Whether a role string denotes manager-or-admin authority,
case-insensitively. -/
def roleIsManagerial (r : String) : Bool :=
  jsToLower r == "manager" || jsToLower r == "admin"

/-- The closed role enum accepted by the membership mutations:
member | manager | admin (already lowercased by the caller). -/
def validRole (r : String) : Bool :=
  r == "member" || r == "manager" || r == "admin"

/-- Row predicate for the (team_id, user_id) key of team_members. -/
def pairMatches (t u : String) (m : MemberRow) : Bool :=
  m.team_id == t && m.user_id == u

/-- The team_members lookup of `isTeamManagerOrAdmin`: the first active
(non-soft-deleted) row for the pair, mirroring SELECT ... WHERE team_id = $1
AND user_id = $2 AND removed_at IS NULL LIMIT 1 over the stored row order. -/
def memberLookup (db : DB) (userId teamId : Jid) : Option MemberRow :=
  db.team_members.find? fun m =>
    some m.team_id == teamId && some m.user_id == userId && m.removed_at == none

/-- The role_assignments lookup of `isTeamManagerOrAdmin`: the first active
(non-revoked) assignment row for the pair. -/
def assignmentLookup (db : DB) (userId teamId : Jid) : Option AssignmentRow :=
  db.role_assignments.find? fun a =>
    a.team_id == teamId && some a.user_id == userId && a.revoked_at == none

/-- The first authority path of isTeamManagerOrAdmin: the active membership
row found for the pair carries a manager/admin role. -/
def memberSignal (db : DB) (userId teamId : Jid) : Bool :=
  match memberLookup db userId teamId with
  | some m => roleIsManagerial m.role
  | none => false

/-- The second authority path of isTeamManagerOrAdmin: the active role
assignment found for the pair names a manager/admin role. -/
def assignmentSignal (db : DB) (userId teamId : Jid) : Bool :=
  match assignmentLookup db userId teamId with
  | some a => roleIsManagerial a.role_name
  | none => false

/-- isTeamManagerOrAdmin(userId, teamId): fails closed on falsy ids without
touching storage; otherwise true iff the first active membership row for the
pair carries a manager/admin role, or, failing that, the first active role
assignment for the pair names a manager/admin role.  Read-only: it takes the
state and returns a Bool without producing a new state. -/
def isTeamManagerOrAdmin (db : DB) (userId teamId : Jid) : Bool :=
  if !(truthy userId) || !(truthy teamId) then false
  else if memberSignal db userId teamId then true
  else assignmentSignal db userId teamId

/-- The access gate shared by every mutating team operation:
`isAdmin || await isTeamManagerOrAdmin(actor?.sub, teamId)`. -/
def canManage (db : DB) (actor : Option Actor) (teamId : Jid) : Bool :=
  isGlobalAdmin actor || isTeamManagerOrAdmin db (actorSub actor) teamId

/-- Insertion step for sorting teams by created_at descending
(ORDER BY created_at DESC). -/
def insertTeamByCreatedDesc (t : TeamRow) : List TeamRow → List TeamRow
  | [] => [t]
  | x :: xs =>
    if x.created_at ≤ t.created_at then t :: x :: xs
    else x :: insertTeamByCreatedDesc t xs

/-- Sort teams by created_at descending. -/
def sortTeamsByCreatedDesc : List TeamRow → List TeamRow
  | [] => []
  | x :: xs => insertTeamByCreatedDesc x (sortTeamsByCreatedDesc xs)

/-- listTeamsForUser(user): an absent user sees the empty list; a global
admin sees every active team; anyone else sees the active teams where they
hold an active membership, found by joining on their subject id (a null
subject joins to nothing). -/
def listTeamsForUser (db : DB) (user : Option Actor) : List TeamRow :=
  match user with
  | none => []
  | some u =>
    if isGlobalAdmin (some u) then
      sortTeamsByCreatedDesc (db.teams.filter fun t => t.archived_at == none)
    else
      match u.sub with
      | some s =>
        sortTeamsByCreatedDesc ((db.teams.filter fun t => t.archived_at == none).filter
          fun t => db.team_members.any fun m =>
            m.team_id == t.id && m.user_id == s && m.removed_at == none)
      | none => []

/-- The active-team lookup shared by getTeamById, updateTeam and archiveTeam:
SELECT ... FROM teams WHERE id = $1 AND archived_at IS NULL. -/
def findActiveTeam (db : DB) (t : String) : Option TeamRow :=
  db.teams.find? fun tm => tm.id == t && tm.archived_at == none

/-- Whether the given subject holds an active membership in the team
(the SELECT 1 FROM team_members ... existence checks of the source); a null
subject matches nothing. -/
def hasActiveMembership (db : DB) (t : String) (sub : Jid) : Bool :=
  match sub with
  | some s =>
    db.team_members.any fun m =>
      m.team_id == t && m.user_id == s && m.removed_at == none
  | none => false

/-- getTeamById(teamId, user): validates the id, resolves the active team
(archived teams are invisible: NotFound), then admits global admins and
active members only. -/
def getTeamById (db : DB) (teamId : Jid) (user : Option Actor) : Except JsErr TeamRow :=
  match teamId with
  | none => .error (.api 400 .teamIdRequired)
  | some t =>
    if t == "" then .error (.api 400 .teamIdRequired)
    else
      match findActiveTeam db t with
      | none => .error (.api 404 .teamNotFound)
      | some team =>
        if isGlobalAdmin user then .ok team
        else if hasActiveMembership db t (actorSub user) then .ok team
        else .error (.api 403 .forbidden)

/-- The row update applied by the team_members upserts
(ON CONFLICT (team_id, user_id) DO UPDATE SET removed_at = NULL,
role = EXCLUDED.role): reactivate and set the role; updated_at follows via
the set_team_members_updated_at trigger (addMember also sets it
explicitly). -/
def upsertRows (rows : List MemberRow) (t u role : String) (now : Nat) : List MemberRow :=
  rows.map fun m =>
    if pairMatches t u m then
      { m with role := role, removed_at := none, updated_at := now }
    else m

/-- A freshly inserted team_members row. -/
def newMemberRow (t u role : String) (now : Nat) : MemberRow :=
  { team_id := t, user_id := u, role := role, created_at := now,
    updated_at := now, removed_at := none }

/-- INSERT INTO team_members ... ON CONFLICT (team_id, user_id) DO UPDATE
SET removed_at = NULL, role = EXCLUDED.role, as issued by addMember and by
createTeam for the creator.  A null or empty user id fails the NOT NULL /
uuid checks of the store; in the no-conflict branch the foreign keys to
teams(id) and users(id) must hold; a conflicting row (active or
soft-deleted) is reactivated in place.  Returns the affected row
(RETURNING). -/
def upsertMemberRow (db : DB) (teamId userId : Jid) (role : String) :
    Except JsErr (MemberRow × DB) :=
  match teamId, userId with
  | some t, some u =>
    if t == "" || u == "" then .error (.storage .nullUserViolation)
    else if db.team_members.any (pairMatches t u) then
      match (upsertRows db.team_members t u role db.now).find? (pairMatches t u) with
      | some r => .ok (r, { db with team_members := upsertRows db.team_members t u role db.now })
      | none => .error (.storage .returningRowMissing)
    else if !(db.teams.any fun tm => tm.id == t) then
      .error (.storage .fkTeamViolation)
    else if !(db.users.any fun us => us.id == u) then
      .error (.storage .fkUserViolation)
    else
      .ok (newMemberRow t u role db.now,
        { db with team_members := db.team_members ++ [newMemberRow t u role db.now] })
  | _, _ => .error (.storage .nullUserViolation)

/-- The plain INSERT INTO team_members issued by changeMemberRole when no
active row matched: no ON CONFLICT clause, so an existing row for the pair —
even a soft-deleted one — violates the (team_id, user_id) uniqueness
constraint and the statement fails. -/
def insertMemberRowStrict (db : DB) (t u role : String) :
    Except JsErr (MemberRow × DB) :=
  if t == "" || u == "" then .error (.storage .nullUserViolation)
  else if db.team_members.any (pairMatches t u) then
    .error (.storage .uniqueViolation)
  else if !(db.teams.any fun tm => tm.id == t) then
    .error (.storage .fkTeamViolation)
  else if !(db.users.any fun us => us.id == u) then
    .error (.storage .fkUserViolation)
  else
    .ok (newMemberRow t u role db.now,
      { db with team_members := db.team_members ++ [newMemberRow t u role db.now] })

/-- The defaulted, lowercased role of addMember:
`(role || 'member').toLowerCase()`. -/
def requestedRoleOf (role : Option String) : String :=
  (match role with
   | some r => if r == "" then "member" else r
   | none => "member") |> jsToLower

/-- addMember(teamId, userId, role, actor): validates ids and the (defaulted)
role, gates on canManage, then upserts the membership keyed on
(team_id, user_id), reactivating a soft-deleted row if one exists. -/
def addMember (db : DB) (teamId userId : Jid) (role : Option String)
    (actor : Option Actor) : Except JsErr (MemberRow × DB) :=
  if !(truthy teamId) || !(truthy userId) then
    .error (.api 400 .teamUserIdRequired)
  else if !(validRole (requestedRoleOf role)) then
    .error (.api 400 .invalidRole)
  else if !(canManage db actor teamId) then
    .error (.api 403 .forbidden)
  else
    upsertMemberRow db teamId userId (requestedRoleOf role)

/-- The row update of removeMember: UPDATE team_members SET removed_at =
NOW(), updated_at = NOW() WHERE team_id = $1 AND user_id = $2 AND removed_at
IS NULL. -/
def removedRows (rows : List MemberRow) (t u : String) (now : Nat) : List MemberRow :=
  rows.map fun m =>
    if pairMatches t u m && m.removed_at == none then
      { m with removed_at := some now, updated_at := now }
    else m

/-- The first active row for the pair, which the UPDATE ... RETURNING of
removeMember and changeMemberRole reports back. -/
def findActiveMember (db : DB) (t u : String) : Option MemberRow :=
  db.team_members.find? fun m => pairMatches t u m && m.removed_at == none

/-- removeMember(teamId, userId, actor): validates ids, gates on canManage,
then soft-deletes the active row for the pair; if no active row exists the
update matches nothing and the call fails with 404. -/
def removeMember (db : DB) (teamId userId : Jid) (actor : Option Actor) :
    Except JsErr (MemberRow × DB) :=
  if !(truthy teamId) || !(truthy userId) then
    .error (.api 400 .teamUserIdRequired)
  else if !(canManage db actor teamId) then
    .error (.api 403 .forbidden)
  else
    match teamId, userId with
    | some t, some u =>
      match findActiveMember db t u with
      | some m =>
        .ok ({ m with removed_at := some db.now, updated_at := db.now },
          { db with team_members := removedRows db.team_members t u db.now })
      | none => .error (.api 404 .membershipNotFound)
    | _, _ => .error (.api 400 .teamUserIdRequired)

/-- The row update of changeMemberRole: UPDATE team_members SET role = $3,
updated_at = NOW() WHERE team_id = $1 AND user_id = $2 AND removed_at IS
NULL. -/
def changedRows (rows : List MemberRow) (t u role : String) (now : Nat) : List MemberRow :=
  rows.map fun m =>
    if pairMatches t u m && m.removed_at == none then
      { m with role := role, updated_at := now }
    else m

/-- changeMemberRole(teamId, userId, role, actor): validates that all three
arguments are present and the role recognized, gates on canManage, then
updates the active row for the pair; when no active row exists it falls back
to a plain INSERT of a fresh membership at the requested role (which the
(team_id, user_id) uniqueness constraint rejects if a soft-deleted row is
still present). -/
def changeMemberRole (db : DB) (teamId userId : Jid) (role : Option String)
    (actor : Option Actor) : Except JsErr (MemberRow × DB) :=
  if !(truthy teamId) || !(truthy userId) || !(truthy role) then
    .error (.api 400 .teamUserRoleRequired)
  else
    match teamId, userId, role with
    | some t, some u, some ro =>
      if !(validRole (jsToLower ro)) then .error (.api 400 .invalidRole)
      else if !(canManage db actor teamId) then .error (.api 403 .forbidden)
      else
        match findActiveMember db t u with
        | some m =>
          .ok ({ m with role := (jsToLower ro), updated_at := db.now },
            { db with team_members := changedRows db.team_members t u (jsToLower ro) db.now })
        | none => insertMemberRowStrict db t u (jsToLower ro)
    | _, _, _ => .error (.api 400 .teamUserRoleRequired)

/-- The id the store generates for a newly inserted team. -/
def genTeamId (n : Nat) : String :=
  "team-" ++ toString n

/-- The description stored by createTeam: `description || null` maps the
falsy empty string and an absent value to NULL. -/
def storedDescription : Option String → Option String
  | some d => if d == "" then none else some d
  | none => none

/-- createTeam({name, description}, user) with explicit storage-fault
injection for the transaction body, mirroring the BEGIN / INSERT team /
upsert creator membership / COMMIT discipline with ROLLBACK on error.
`memberFault` injects a storage failure into the creator-membership
statement (in place of running it); `rollbackFault` injects a failure into
the ROLLBACK statement itself.  Per the source's catch block — `await
client.query('ROLLBACK'); throw err;` — a failing ROLLBACK rejects first,
so its error, not the original one, reaches the caller; the transaction
never commits in either case, so the state reverts to the input state.
Returns the result paired with the resulting state. -/
def createTeam (db : DB) (name description : Option String) (user : Option Actor)
    (memberFault rollbackFault : Option JsErr) : Except JsErr TeamRow × DB :=
  match user with
  | none => (.error (.api 401 .unauthorized), db)
  | some u =>
    if !(isGlobalAdmin (some u)) then
      (.error (.api 403 .onlyAdminsCreate), db)
    else
      match name with
      | none => (.error (.api 400 .nameTooShort), db)
      | some n =>
        if (jsTrim n).length < 2 then (.error (.api 400 .nameTooShort), db)
        else
          let team : TeamRow :=
            { id := genTeamId db.nextId, name := jsTrim n,
              description := storedDescription description,
              created_at := db.now, updated_at := db.now, archived_at := none }
          let dbT := { db with teams := db.teams ++ [team], nextId := db.nextId + 1 }
          let memberRes : Except JsErr (MemberRow × DB) :=
            match memberFault with
            | some e => .error e
            | none => upsertMemberRow dbT (some team.id) u.sub "manager"
          match memberRes with
          | .ok (_, dbM) => (.ok team, dbM)
          | .error e =>
            match rollbackFault with
            | some e2 => (.error e2, db)
            | none => (.error e, db)

/-- The name/description fields updateTeam decides to apply: a given name
counts only when it trims to at least 2 characters (an invalid name is
silently dropped); a given description always counts, including the empty
string. -/
def effectiveNewName (name : Option String) : Option String :=
  match name with
  | some n => if 2 ≤ (jsTrim n).length then some (jsTrim n) else none
  | none => none

/-- The column update applied by updateTeam to the active team row. -/
def applyTeamUpdate (newName description : Option String) (now : Nat)
    (tm : TeamRow) : TeamRow :=
  { tm with
    name := match newName with | some nn => nn | none => tm.name,
    description := match description with | some d => some d | none => tm.description,
    updated_at := now }

/-- updateTeam(teamId, {name, description}, user): validates the id, gates on
canManage, drops an invalid name silently, fails with 400 only when neither
field remains to apply, then updates the active team row (archived or absent
teams: 404). -/
def updateTeam (db : DB) (teamId : Jid) (name description : Option String)
    (user : Option Actor) : Except JsErr (TeamRow × DB) :=
  match teamId with
  | none => .error (.api 400 .teamIdRequired)
  | some t =>
    if t == "" then .error (.api 400 .teamIdRequired)
    else if !(canManage db user (some t)) then .error (.api 403 .forbidden)
    else if effectiveNewName name == none && description == none then
      .error (.api 400 .noValidFields)
    else
      match findActiveTeam db t with
      | none => .error (.api 404 .teamNotFoundOrArchived)
      | some team =>
        .ok (applyTeamUpdate (effectiveNewName name) description db.now team,
          { db with teams := db.teams.map fun tm =>
              if tm.id == t && tm.archived_at == none then
                applyTeamUpdate (effectiveNewName name) description db.now tm
              else tm })

/-- archiveTeam(teamId, user): validates the id, gates on canManage, then
sets archived_at = NOW() on the active team row (updated_at follows via the
trigger); an absent or already-archived team makes the UPDATE match nothing
and the call fails with 404. -/
def archiveTeam (db : DB) (teamId : Jid) (user : Option Actor) :
    Except JsErr (TeamRow × DB) :=
  match teamId with
  | none => .error (.api 400 .teamIdRequired)
  | some t =>
    if t == "" then .error (.api 400 .teamIdRequired)
    else if !(canManage db user (some t)) then .error (.api 403 .forbidden)
    else
      match findActiveTeam db t with
      | none => .error (.api 404 .teamNotFoundOrArchived)
      | some team =>
        .ok ({ team with archived_at := some db.now, updated_at := db.now },
          { db with teams := db.teams.map fun tm =>
              if tm.id == t && tm.archived_at == none then
                { tm with archived_at := some db.now, updated_at := db.now }
              else tm })

/-- A member row joined with the user display fields, as returned by
listMembers. -/
structure MemberView where
  user_id : String
  name : String
  email : String
  role : String
  created_at : Nat
  updated_at : Nat
  deriving DecidableEq, Repr

/-- Insertion step for sorting member rows by created_at ascending
(ORDER BY m.created_at ASC). -/
def insertMemberByCreatedAsc (m : MemberRow) : List MemberRow → List MemberRow
  | [] => [m]
  | x :: xs =>
    if m.created_at ≤ x.created_at then m :: x :: xs
    else x :: insertMemberByCreatedAsc m xs

/-- Sort member rows by created_at ascending. -/
def sortMembersByCreatedAsc : List MemberRow → List MemberRow
  | [] => []
  | x :: xs => insertMemberByCreatedAsc x (sortMembersByCreatedAsc xs)

/-- The SELECT of listMembers: active members of the team joined with users
on user_id (an INNER JOIN, so members without a users row are dropped),
ordered by membership creation time ascending. -/
def memberViews (db : DB) (t : String) : List MemberView :=
  (sortMembersByCreatedAsc (db.team_members.filter fun m =>
    m.team_id == t && m.removed_at == none)).filterMap fun m =>
      (db.users.find? fun us => us.id == m.user_id).map fun us =>
        { user_id := m.user_id, name := us.name, email := us.email,
          role := m.role, created_at := m.created_at, updated_at := m.updated_at }

/-- listMembers(teamId, user): validates the id; global admins bypass the
membership check, anyone else must hold an active membership in the team;
returns the joined active member rows. -/
def listMembers (db : DB) (teamId : Jid) (user : Option Actor) :
    Except JsErr (List MemberView) :=
  match teamId with
  | none => .error (.api 400 .teamIdRequired)
  | some t =>
    if t == "" then .error (.api 400 .teamIdRequired)
    else if isGlobalAdmin user then .ok (memberViews db t)
    else if hasActiveMembership db t (actorSub user) then .ok (memberViews db t)
    else .error (.api 403 .forbidden)

/-- All rows of a team_members list for the (team, user) pair, active or
soft-deleted. -/
def rowsFor (rows : List MemberRow) (t u : String) : List MemberRow :=
  rows.filter (pairMatches t u)

/-- The active (non-soft-deleted) rows of a team_members list for the
(team, user) pair. -/
def activeRowsFor (rows : List MemberRow) (t u : String) : List MemberRow :=
  rows.filter fun m => pairMatches t u m && m.removed_at == none

/-- The uniqueness constraint of the schema on team_members: no two rows —
active or soft-deleted — share a (team_id, user_id) pair. -/
def pairUniqueB : List MemberRow → Bool
  | [] => true
  | m :: rest =>
    rest.all (fun x => !(x.team_id == m.team_id && x.user_id == m.user_id)) &&
      pairUniqueB rest

/-- The active (non-revoked) assignment rows for a (team, user) pair. -/
def activeAssignsFor (rows : List AssignmentRow) (t u : String) : List AssignmentRow :=
  rows.filter fun a => a.team_id == some t && a.user_id == u && a.revoked_at == none

/-- The primary-key constraint of the teams table: ids are pairwise
distinct. -/
def teamIdsUniqueB : List TeamRow → Bool
  | [] => true
  | tm :: rest => rest.all (fun x => !(x.id == tm.id)) && teamIdsUniqueB rest

/-- A global-admin actor used in the concrete scenarios. -/
def adminActor : Actor :=
  { sub := some "u-admin", role := some "admin" }

/-- A plain member actor used in the concrete scenarios. -/
def memberActor : Actor :=
  { sub := some "u1", role := some "member" }

/-- The users table of the concrete scenarios. -/
def wUsers : List UserRow :=
  [{ id := "u-admin", name := "Ada", email := "ada@example.com" },
   { id := "u1", name := "Uma", email := "uma@example.com" }]

/-- An active team used in the concrete scenarios. -/
def wTeam : TeamRow :=
  { id := "t1", name := "Core", description := none, created_at := 1,
    updated_at := 1, archived_at := none }

/-- A base state: one active team, no memberships. -/
def wDB : DB :=
  { teams := [wTeam], team_members := [], role_assignments := [],
    users := wUsers, now := 5, nextId := 7 }

/-- A state holding a soft-deleted membership row for (t1, u1): the pair has
history but no active row. -/
def softDeletedDB : DB :=
  { teams := [wTeam],
    team_members := [{ team_id := "t1", user_id := "u1", role := "member",
                       created_at := 1, updated_at := 2, removed_at := some 2 }],
    role_assignments := [], users := wUsers, now := 5, nextId := 7 }

/-- A state where u1 holds an active manager membership in t1. -/
def managerDB : DB :=
  { teams := [wTeam],
    team_members := [{ team_id := "t1", user_id := "u1", role := "manager",
                       created_at := 1, updated_at := 1, removed_at := none }],
    role_assignments := [], users := wUsers, now := 5, nextId := 7 }

/-- A state with one active and one archived team. -/
def archDB : DB :=
  { teams := [wTeam,
              { id := "t2", name := "Old", description := none, created_at := 0,
                updated_at := 3, archived_at := some 3 }],
    team_members := [], role_assignments := [], users := wUsers,
    now := 5, nextId := 7 }

/-- The membership row for (t1, u1) as produced by the concrete scenario
runs, at a given role and soft-delete state. -/
def wMemberRow (role : String) (removed : Option Nat) : MemberRow :=
  { team_id := "t1", user_id := "u1", role := role, created_at := 5,
    updated_at := 5, removed_at := removed }

/-- State after adding u1 to t1 as manager in the base state. -/
def wDB1 : DB := { wDB with team_members := [wMemberRow "manager" none] }

/-- State after then soft-removing u1 from t1. -/
def wDB2 : DB := { wDB with team_members := [wMemberRow "manager" (some 5)] }

/-- State after then re-adding u1 to t1 as member. -/
def wDB3 : DB := { wDB with team_members := [wMemberRow "member" none] }

/-- The team that createTeam generates from the base state. -/
def wTeam7 : TeamRow :=
  { id := "team-7", name := "Eng", description := none, created_at := 5,
    updated_at := 5, archived_at := none }

/-- The state after the concrete successful createTeam run on the base
state: the new team plus the creator's manager membership. -/
def wDB7 : DB :=
  { teams := [wTeam, wTeam7],
    team_members := [{ team_id := "team-7", user_id := "u-admin",
                       role := "manager", created_at := 5, updated_at := 5,
                       removed_at := none }],
    role_assignments := [], users := wUsers, now := 5, nextId := 8 }

/-! ### General lemmas about the membership invariants -/

theorem eq_of_mem_of_length_le_one {α : Type} {l : List α} {a b : α}
    (h : l.length ≤ 1) (ha : a ∈ l) (hb : b ∈ l) : a = b := by
  match l with
  | [] => cases ha
  | [x] =>
    rw [List.mem_singleton] at ha hb
    rw [ha, hb]
  | x :: y :: xs => simp at h

theorem rowsFor_length_le_one {rows : List MemberRow} {t u : String}
    (h : pairUniqueB rows = true) : (rowsFor rows t u).length ≤ 1 := by
  induction rows with
  | nil => simp [rowsFor]
  | cons m rest ih =>
    simp only [pairUniqueB, Bool.and_eq_true, List.all_eq_true] at h
    obtain ⟨hall, hrest⟩ := h
    rw [rowsFor, List.filter_cons]
    by_cases hm : pairMatches t u m = true
    · have hnil : rest.filter (pairMatches t u) = [] := by
        rw [List.filter_eq_nil_iff]
        intro x hx hpx
        have h1 := hall x hx
        simp only [pairMatches, Bool.and_eq_true, beq_iff_eq] at hpx hm
        simp only [Bool.not_eq_true', Bool.and_eq_false_iff, beq_eq_false_iff_ne] at h1
        rcases h1 with h1 | h1
        · exact h1 (hpx.1.trans hm.1.symm)
        · exact h1 (hpx.2.trans hm.2.symm)
      simp [hm, hnil, rowsFor]
    · simp only [hm, if_false]
      exact ih hrest

theorem activeRowsFor_eq_nil_of_rowsFor {rows : List MemberRow} {t u : String}
    (h : rowsFor rows t u = []) : activeRowsFor rows t u = [] := by
  rw [rowsFor, List.filter_eq_nil_iff] at h
  rw [activeRowsFor, List.filter_eq_nil_iff]
  intro m hm hpm
  rw [Bool.and_eq_true] at hpm
  exact h m hm hpm.1

theorem any_pair_eq_false_iff {rows : List MemberRow} {t u : String} :
    rows.any (pairMatches t u) = false ↔ rowsFor rows t u = [] := by
  rw [List.any_eq_false, rowsFor, List.filter_eq_nil_iff]

theorem pairUniqueB_map {rows : List MemberRow} {f : MemberRow → MemberRow}
    (hteam : ∀ m, (f m).team_id = m.team_id) (huser : ∀ m, (f m).user_id = m.user_id)
    (h : pairUniqueB rows = true) : pairUniqueB (rows.map f) = true := by
  induction rows with
  | nil => rfl
  | cons m rest ih =>
    simp only [pairUniqueB, Bool.and_eq_true, List.all_eq_true] at h
    obtain ⟨hall, hrest⟩ := h
    simp only [List.map_cons, pairUniqueB, Bool.and_eq_true, List.all_eq_true]
    refine ⟨?_, ih hrest⟩
    intro x hx
    rw [List.mem_map] at hx
    obtain ⟨y, hy, rfl⟩ := hx
    have h1 := hall y hy
    simpa only [hteam, huser] using h1

theorem pairUniqueB_upsertRows {rows : List MemberRow} {t u ro : String} {now : Nat}
    (h : pairUniqueB rows = true) : pairUniqueB (upsertRows rows t u ro now) = true := by
  rw [upsertRows]
  refine pairUniqueB_map ?_ ?_ h
  · intro m; dsimp only; split <;> rfl
  · intro m; dsimp only; split <;> rfl

theorem pairUniqueB_removedRows {rows : List MemberRow} {t u : String} {now : Nat}
    (h : pairUniqueB rows = true) : pairUniqueB (removedRows rows t u now) = true := by
  rw [removedRows]
  refine pairUniqueB_map ?_ ?_ h
  · intro m; dsimp only; split <;> rfl
  · intro m; dsimp only; split <;> rfl

theorem pairUniqueB_changedRows {rows : List MemberRow} {t u ro : String} {now : Nat}
    (h : pairUniqueB rows = true) : pairUniqueB (changedRows rows t u ro now) = true := by
  rw [changedRows]
  refine pairUniqueB_map ?_ ?_ h
  · intro m; dsimp only; split <;> rfl
  · intro m; dsimp only; split <;> rfl

theorem pairUniqueB_append_new {rows : List MemberRow} {t u ro : String} {now : Nat}
    (h : pairUniqueB rows = true) (hnone : rowsFor rows t u = []) :
    pairUniqueB (rows ++ [newMemberRow t u ro now]) = true := by
  induction rows with
  | nil => rfl
  | cons m rest ih =>
    simp only [pairUniqueB, Bool.and_eq_true, List.all_eq_true] at h
    obtain ⟨hall, hrest⟩ := h
    rw [rowsFor, List.filter_cons] at hnone
    cases hm : pairMatches t u m with
    | true => simp [hm] at hnone
    | false =>
      simp only [hm, Bool.false_eq_true, if_false] at hnone
      simp only [List.cons_append, pairUniqueB, Bool.and_eq_true, List.all_eq_true]
      refine ⟨?_, ih hrest hnone⟩
      intro x hx
      simp only [List.append_eq, List.mem_append, List.mem_singleton] at hx
      rcases hx with hx | rfl
      · exact hall x hx
      · simp only [pairMatches, Bool.and_eq_false_iff, beq_eq_false_iff_ne] at hm
        simp only [newMemberRow, Bool.not_eq_true', Bool.and_eq_false_iff, beq_eq_false_iff_ne]
        rcases hm with hm | hm
        · left; exact fun hc => hm hc.symm
        · right; exact fun hc => hm hc.symm

theorem activeRowsFor_upsertRows (rows : List MemberRow) (t u ro : String) (now : Nat) :
    activeRowsFor (upsertRows rows t u ro now) t u =
      (rowsFor rows t u).map
        (fun m => { m with role := ro, removed_at := none, updated_at := now }) := by
  simp only [activeRowsFor, upsertRows, rowsFor]
  rw [List.filter_map]
  have hfilter : rows.filter
      ((fun m => pairMatches t u m && (m.removed_at == none)) ∘
        fun m => if pairMatches t u m = true then
          { m with role := ro, removed_at := none, updated_at := now } else m)
      = rows.filter (pairMatches t u) := by
    refine List.filter_congr ?_
    intro x _
    cases hx : pairMatches t u x with
    | true =>
      have hx2 : x.team_id = t ∧ x.user_id = u := by
        simpa [pairMatches] using hx
      simp [Function.comp, pairMatches, hx2]
    | false => simp [Function.comp, hx]
  rw [hfilter]
  refine List.map_congr_left ?_
  intro a ha
  rw [List.mem_filter] at ha
  rw [if_pos ha.2]

theorem activeRowsFor_removedRows (rows : List MemberRow) (t u : String) (now : Nat) :
    activeRowsFor (removedRows rows t u now) t u = [] := by
  simp only [activeRowsFor, removedRows]
  rw [List.filter_map]
  have hfilter : rows.filter
      ((fun m => pairMatches t u m && (m.removed_at == none)) ∘
        fun m => if (pairMatches t u m && (m.removed_at == none)) = true then
          { m with removed_at := some now, updated_at := now } else m)
      = rows.filter (fun _ => false) := by
    refine List.filter_congr ?_
    intro x _
    cases hx : (pairMatches t u x && (x.removed_at == none)) with
    | true =>
      have hx2 : (x.team_id = t ∧ x.user_id = u) ∧ x.removed_at = none := by
        simpa [pairMatches] using hx
      simp [Function.comp, pairMatches, hx2]
    | false => simp [Function.comp, hx]
  rw [hfilter, List.filter_false, List.map_nil]

theorem upsertRows_pair_fields {rows : List MemberRow} {t u ro : String} {now : Nat}
    {m : MemberRow} (hm : m ∈ upsertRows rows t u ro now)
    (hp : pairMatches t u m = true) : m.role = ro ∧ m.removed_at = none := by
  rw [upsertRows, List.mem_map] at hm
  obtain ⟨y, _, rfl⟩ := hm
  cases hy : pairMatches t u y with
  | true => simp
  | false =>
    exfalso
    rw [hy] at hp
    simp only [Bool.false_eq_true, if_false] at hp
    rw [hy] at hp
    cases hp

theorem pair_exists_upsertRows {rows : List MemberRow} {t u ro : String} {now : Nat}
    (h : ∃ m ∈ rows, pairMatches t u m = true) :
    ∃ m ∈ upsertRows rows t u ro now, pairMatches t u m = true := by
  obtain ⟨m, hm, hp⟩ := h
  refine ⟨(fun m => if pairMatches t u m = true then
    { m with role := ro, removed_at := none, updated_at := now } else m) m, ?_, ?_⟩
  · rw [upsertRows]
    exact List.mem_map_of_mem _ hm
  · dsimp only
    rw [if_pos hp]
    simpa [pairMatches] using hp

theorem pair_exists_removedRows {rows : List MemberRow} {t u : String} {now : Nat}
    (h : ∃ m ∈ rows, pairMatches t u m = true) :
    ∃ m ∈ removedRows rows t u now, pairMatches t u m = true := by
  obtain ⟨m, hm, hp⟩ := h
  refine ⟨(fun m => if (pairMatches t u m && (m.removed_at == none)) = true then
    { m with removed_at := some now, updated_at := now } else m) m, ?_, ?_⟩
  · rw [removedRows]
    exact List.mem_map_of_mem _ hm
  · dsimp only
    split
    · simpa [pairMatches] using hp
    · exact hp

theorem isTeamManagerOrAdmin_congr {db db' : DB}
    (h1 : db'.team_members = db.team_members)
    (h2 : db'.role_assignments = db.role_assignments) (uid tid : Jid) :
    isTeamManagerOrAdmin db' uid tid = isTeamManagerOrAdmin db uid tid := by
  simp only [isTeamManagerOrAdmin, memberSignal, assignmentSignal, memberLookup, assignmentLookup, h1, h2]

theorem canManage_congr {db db' : DB}
    (h1 : db'.team_members = db.team_members)
    (h2 : db'.role_assignments = db.role_assignments) (actor : Option Actor) (tid : Jid) :
    canManage db' actor tid = canManage db actor tid := by
  rw [canManage, canManage, isTeamManagerOrAdmin_congr h1 h2]

theorem mem_insertMemberByCreatedAsc {m x : MemberRow} {l : List MemberRow} :
    x ∈ insertMemberByCreatedAsc m l ↔ x = m ∨ x ∈ l := by
  induction l with
  | nil => simp [insertMemberByCreatedAsc]
  | cons y ys ih =>
    rw [insertMemberByCreatedAsc]
    split
    · simp
    · simp only [List.mem_cons, ih]
      tauto

theorem mem_sortMembersByCreatedAsc {x : MemberRow} {l : List MemberRow} :
    x ∈ sortMembersByCreatedAsc l ↔ x ∈ l := by
  induction l with
  | nil => simp [sortMembersByCreatedAsc]
  | cons y ys ih =>
    rw [sortMembersByCreatedAsc, mem_insertMemberByCreatedAsc]
    simp only [List.mem_cons, ih]

/-! ### Inversion lemmas for the success paths of the operations -/

theorem upsertMemberRow_ok {db : DB} {t u ro : String} {r : MemberRow} {db' : DB}
    (h : upsertMemberRow db (some t) (some u) ro = .ok (r, db')) :
    t ≠ "" ∧ u ≠ "" ∧
    db'.teams = db.teams ∧ db'.role_assignments = db.role_assignments ∧
    db'.users = db.users ∧ db'.now = db.now ∧ db'.nextId = db.nextId ∧
    ((db.team_members.any (pairMatches t u) = true ∧
      db'.team_members = upsertRows db.team_members t u ro db.now) ∨
     (db.team_members.any (pairMatches t u) = false ∧
      db'.team_members = db.team_members ++ [newMemberRow t u ro db.now] ∧
      r = newMemberRow t u ro db.now)) := by
  rw [upsertMemberRow] at h
  split at h
  next hcond => simp at h
  next hcond =>
    rw [Bool.or_eq_true, not_or] at hcond
    obtain ⟨ht, hu⟩ := hcond
    rw [Bool.not_eq_true, beq_eq_false_iff_ne] at ht hu
    refine ⟨ht, hu, ?_⟩
    split at h
    next hany =>
      split at h
      next r0 hfind =>
        rw [Except.ok.injEq, Prod.mk.injEq] at h
        obtain ⟨hr0, hdb⟩ := h
        subst hdb
        exact ⟨rfl, rfl, rfl, rfl, rfl, Or.inl ⟨hany, rfl⟩⟩
      next hfind => simp at h
    next hany =>
      rw [Bool.not_eq_true] at hany
      split at h
      next => simp at h
      next =>
        split at h
        next => simp at h
        next =>
          rw [Except.ok.injEq, Prod.mk.injEq] at h
          obtain ⟨hr0, hdb⟩ := h
          subst hdb
          exact ⟨rfl, rfl, rfl, rfl, rfl, Or.inr ⟨hany, rfl, hr0.symm⟩⟩

theorem upsertMemberRow_pair_row {db : DB} {t u ro : String} {r : MemberRow} {db' : DB}
    (h : upsertMemberRow db (some t) (some u) ro = .ok (r, db')) :
    ∃ m ∈ db'.team_members, pairMatches t u m = true ∧ m.role = ro ∧ m.removed_at = none := by
  obtain ⟨ht, hu, _, _, _, _, _, hcase⟩ := upsertMemberRow_ok h
  rcases hcase with ⟨hany, hM⟩ | ⟨hany, hM, hr⟩
  · rw [hM]
    have hex : ∃ m ∈ db.team_members, pairMatches t u m = true := by
      rw [← List.any_eq_true]; exact hany
    obtain ⟨m0, hm0, hp0⟩ := @pair_exists_upsertRows db.team_members t u ro db.now hex
    exact ⟨m0, hm0, hp0, (upsertRows_pair_fields hm0 hp0).1,
      (upsertRows_pair_fields hm0 hp0).2⟩
  · rw [hM]
    refine ⟨newMemberRow t u ro db.now, ?_, ?_, rfl, rfl⟩
    · simp
    · simp [newMemberRow, pairMatches]

theorem upsertMemberRow_all_pair_rows {db : DB} {t u ro : String} {r : MemberRow} {db' : DB}
    (h : upsertMemberRow db (some t) (some u) ro = .ok (r, db')) :
    ∀ m ∈ db'.team_members, pairMatches t u m = true → m.role = ro ∧ m.removed_at = none := by
  obtain ⟨_, _, _, _, _, _, _, hcase⟩ := upsertMemberRow_ok h
  rcases hcase with ⟨hany, hM⟩ | ⟨hany, hM, _⟩
  · rw [hM]; intro m hm hp
    exact upsertRows_pair_fields hm hp
  · rw [hM]; intro m hm hp
    rw [List.mem_append, List.mem_singleton] at hm
    rcases hm with hm | rfl
    · exfalso
      rw [List.any_eq_false] at hany
      exact absurd hp (by simpa using hany m hm)
    · exact ⟨rfl, rfl⟩

theorem addMember_ok {db : DB} {t u : String} {role : Option String}
    {actor : Option Actor} {r : MemberRow} {db' : DB}
    (h : addMember db (some t) (some u) role actor = .ok (r, db')) :
    upsertMemberRow db (some t) (some u) (requestedRoleOf role) = .ok (r, db') := by
  rw [addMember] at h
  split at h
  next => simp at h
  next =>
    split at h
    next => simp at h
    next =>
      split at h
      next => simp at h
      next => exact h

theorem removeMember_ok {db : DB} {t u : String} {actor : Option Actor}
    {r : MemberRow} {db' : DB}
    (h : removeMember db (some t) (some u) actor = .ok (r, db')) :
    db'.team_members = removedRows db.team_members t u db.now ∧
    db'.teams = db.teams ∧ db'.role_assignments = db.role_assignments ∧
    db'.users = db.users ∧ db'.now = db.now ∧ db'.nextId = db.nextId := by
  rw [removeMember] at h
  split at h
  next => simp at h
  next =>
    split at h
    next => simp at h
    next =>
      split at h
      next m hfind =>
        rw [Except.ok.injEq, Prod.mk.injEq] at h
        obtain ⟨hr0, hdb⟩ := h
        subst hdb
        exact ⟨rfl, rfl, rfl, rfl, rfl, rfl⟩
      next => simp at h

theorem createTeam_ok {db : DB} {name desc : Option String} {a : Actor}
    {team : TeamRow} {db' : DB}
    (h : createTeam db name desc (some a) none none = (.ok team, db')) :
    isGlobalAdmin (some a) = true ∧
    ∃ n, name = some n ∧ 2 ≤ (jsTrim n).length ∧
      team = { id := genTeamId db.nextId, name := jsTrim n,
               description := storedDescription desc,
               created_at := db.now, updated_at := db.now, archived_at := none } ∧
      ∃ r, upsertMemberRow
        { db with teams := db.teams ++ [team], nextId := db.nextId + 1 }
        (some team.id) a.sub "manager" = .ok (r, db') := by
  rw [createTeam.eq_def] at h
  split at h
  next heq => simp at h
  next u2 hadm =>
    rw [Option.some_inj] at hadm
    subst hadm
    split at h
    next => simp at h
    next hadm2 =>
      rw [Bool.not_eq_true', Bool.not_eq_false] at hadm2
      refine ⟨hadm2, ?_⟩
      split at h
      next => simp at h
      next n =>
        split at h
        next hlen => simp at h
        next hlen =>
          rw [Nat.not_lt] at hlen
          refine ⟨n, rfl, hlen, ?_⟩
          simp only [] at h
          split at h
          next fst dbM hup =>
            rw [Prod.mk.injEq, Except.ok.injEq] at h
            obtain ⟨hteam, hdb⟩ := h
            subst hdb
            subst hteam
            exact ⟨rfl, fst, hup⟩
          next e hup =>
            simp at h

theorem length_upsertRows (rows : List MemberRow) (t u ro : String) (now : Nat) :
    (upsertRows rows t u ro now).length = rows.length := by
  rw [upsertRows, List.length_map]

theorem length_removedRows (rows : List MemberRow) (t u : String) (now : Nat) :
    (removedRows rows t u now).length = rows.length := by
  rw [removedRows, List.length_map]

/-! ### Claim theorems -/

/-- C10: listTeamsForUser with an absent (null/undefined) user returns the
empty list for every store state — so the result involves no storage query
and no error, and the empty list is the only possible result. -/
theorem listTeamsForUser_absent_user (db : DB) :
    listTeamsForUser db none = [] := rfl

/-- C4 counterexample: the claim says createTeam fails with the Forbidden
kind for every non-admin actor including an absent one; on an absent actor
the code instead throws status 401 (Unauthorized), not 403 (Forbidden). -/
theorem createTeam_absent_actor_unauthorized_ce :
    (createTeam wDB (some "Eng") none none none none).1
        = .error (.api 401 .unauthorized) ∧
    JsErr.api 401 ErrKind.unauthorized ≠ JsErr.api 403 ErrKind.onlyAdminsCreate := by
  exact ⟨by decide, by decide⟩

/-- C4 (amended): createTeam fails with Forbidden (403) whenever the actor is
present and not a global admin, for any name, description, and storage
faults; an absent actor instead fails with Unauthorized (401).  The state is
returned unchanged in both cases. -/
theorem createTeam_forbidden_for_nonadmin (db : DB) (name desc : Option String)
    (mf rf : Option JsErr) :
    (∀ a : Actor, isGlobalAdmin (some a) = false →
      createTeam db name desc (some a) mf rf
        = (.error (.api 403 .onlyAdminsCreate), db)) ∧
    createTeam db name desc none mf rf = (.error (.api 401 .unauthorized), db) := by
  constructor
  · intro a ha
    rw [createTeam.eq_def]
    simp [ha]
  · rfl

/-- C4 witness: a concrete non-admin actor is refused with 403. -/
theorem createTeam_forbidden_for_nonadmin_witness :
    isGlobalAdmin (some memberActor) = false ∧
    createTeam wDB (some "Eng") none (some memberActor) none none
      = (.error (.api 403 .onlyAdminsCreate), wDB) :=
  ⟨by decide,
   (createTeam_forbidden_for_nonadmin wDB (some "Eng") none none none).1
     memberActor (by decide)⟩

/-- C1 counterexample: for the pair (t1, u1) a soft-deleted membership row
exists and no active one; the claim says changeMemberRole then inserts a new
row at the requested role and returns it, but the fallback INSERT hits the
(team_id, user_id) uniqueness constraint and the call fails with a storage
error instead. -/
theorem changeMemberRole_softdeleted_row_fails_ce :
    changeMemberRole softDeletedDB (some "t1") (some "u1") (some "manager")
        (some adminActor)
      = .error (.storage .uniqueViolation) := by decide

/-- C1 (amended): when no membership row at all — active or soft-deleted —
exists for the pair, and the referenced team and user rows exist, a managing
actor's changeMemberRole on valid inputs inserts a fresh membership row at
the requested (lowercased) role and returns it.  When a soft-deleted row
exists, the fallback insert instead violates the (team_id, user_id)
uniqueness constraint and fails (see the counterexample). -/
theorem changeMemberRole_inserts_when_no_row (db : DB) (t u ro : String)
    (actor : Option Actor)
    (ht : t ≠ "") (hu : u ≠ "") (hro : ro ≠ "")
    (hv : validRole (jsToLower ro) = true)
    (hcm : canManage db actor (some t) = true)
    (hnone : rowsFor db.team_members t u = [])
    (hteam : db.teams.any (fun tm => tm.id == t) = true)
    (husr : db.users.any (fun us => us.id == u) = true) :
    changeMemberRole db (some t) (some u) (some ro) actor
      = .ok (newMemberRow t u (jsToLower ro) db.now,
        { db with team_members :=
            db.team_members ++ [newMemberRow t u (jsToLower ro) db.now] }) := by
  have htr : truthy (some t) = true := by simp [truthy, ht]
  have hur : truthy (some u) = true := by simp [truthy, hu]
  have hror : truthy (some ro) = true := by simp [truthy, hro]
  have hfind : findActiveMember db t u = none := by
    rw [findActiveMember, List.find?_eq_none]
    rw [rowsFor, List.filter_eq_nil_iff] at hnone
    intro x hx hpx
    rw [Bool.and_eq_true] at hpx
    exact hnone x hx hpx.1
  have hany : db.team_members.any (pairMatches t u) = false :=
    any_pair_eq_false_iff.mpr hnone
  rw [changeMemberRole]
  rw [htr, hur, hror]
  simp only [Bool.not_true, Bool.or_self, Bool.false_or, Bool.or_false,
    Bool.false_eq_true, if_false]
  rw [hv, hcm]
  simp only [Bool.not_true, Bool.false_eq_true, if_false]
  rw [hfind, insertMemberRowStrict]
  rw [if_neg (by simp [ht, hu])]
  rw [hany, hteam, husr]
  simp

/-- C1 witness: on a state with no membership row for (t1, u1) at all, the
amended claim's insert path runs and returns the fresh manager row. -/
theorem changeMemberRole_inserts_when_no_row_witness :
    canManage wDB (some adminActor) (some "t1") = true ∧
    rowsFor wDB.team_members "t1" "u1" = [] ∧
    changeMemberRole wDB (some "t1") (some "u1") (some "manager") (some adminActor)
      = .ok (newMemberRow "t1" "u1" "manager" 5,
        { wDB with team_members := [newMemberRow "t1" "u1" "manager" 5] }) :=
  ⟨by decide, by decide,
   changeMemberRole_inserts_when_no_row wDB "t1" "u1" "manager" (some adminActor)
     (by decide) (by decide) (by decide) (by decide) (by decide) (by decide)
     (by decide) (by decide)⟩

/-- C2: starting from any state satisfying the (team, user) uniqueness
constraint, a successful addMember(T, U, manager), removeMember(T, U),
addMember(T, U, member) sequence leaves exactly one active membership row for
the pair, at member tier; the constraint still holds afterwards and the
re-add created no new row (the soft-deleted row was reactivated by the
upsert), so no duplicate ever appears. -/
theorem add_remove_add_single_active_member_row
    (db : DB) (t u : String) (actor : Option Actor)
    (r1 r2 r3 : MemberRow) (db1 db2 db3 : DB)
    (hu0 : pairUniqueB db.team_members = true)
    (h1 : addMember db (some t) (some u) (some "manager") actor = .ok (r1, db1))
    (h2 : removeMember db1 (some t) (some u) actor = .ok (r2, db2))
    (h3 : addMember db2 (some t) (some u) (some "member") actor = .ok (r3, db3)) :
    (activeRowsFor db3.team_members t u).map (fun m => m.role) = ["member"] ∧
    pairUniqueB db3.team_members = true ∧
    db3.team_members.length = db1.team_members.length := by
  have hup1 := addMember_ok h1
  have hro1 : requestedRoleOf (some "manager") = "manager" := rfl
  rw [hro1] at hup1
  obtain ⟨-, -, -, -, -, -, -, hcase1⟩ := upsertMemberRow_ok hup1
  have hu1 : pairUniqueB db1.team_members = true := by
    rcases hcase1 with ⟨hany, hM⟩ | ⟨hany, hM, -⟩
    · rw [hM]; exact pairUniqueB_upsertRows hu0
    · rw [hM]
      exact pairUniqueB_append_new hu0 (any_pair_eq_false_iff.mp hany)
  have hex1 : ∃ m ∈ db1.team_members, pairMatches t u m = true := by
    rcases hcase1 with ⟨hany, hM⟩ | ⟨hany, hM, -⟩
    · rw [hM]
      exact pair_exists_upsertRows (List.any_eq_true.mp hany)
    · rw [hM]
      refine ⟨newMemberRow t u "manager" db.now, by simp, ?_⟩
      simp [newMemberRow, pairMatches]
  obtain ⟨hM2, -, -, -, -, -⟩ := removeMember_ok h2
  have hu2 : pairUniqueB db2.team_members = true := by
    rw [hM2]; exact pairUniqueB_removedRows hu1
  have hex2 : ∃ m ∈ db2.team_members, pairMatches t u m = true := by
    rw [hM2]; exact pair_exists_removedRows hex1
  have hup3 := addMember_ok h3
  have hro3 : requestedRoleOf (some "member") = "member" := rfl
  rw [hro3] at hup3
  obtain ⟨-, -, -, -, -, -, -, hcase3⟩ := upsertMemberRow_ok hup3
  rcases hcase3 with ⟨hany3, hM3⟩ | ⟨hany3, hM3, -⟩
  · obtain ⟨m2, hm2mem, hm2p⟩ := hex2
    have hm2in : m2 ∈ rowsFor db2.team_members t u := by
      rw [rowsFor, List.mem_filter]
      exact ⟨hm2mem, hm2p⟩
    have hile := @rowsFor_length_le_one db2.team_members t u hu2
    have hrows : rowsFor db2.team_members t u = [m2] := by
      cases hc : rowsFor db2.team_members t u with
      | nil => rw [hc] at hm2in; cases hm2in
      | cons a l =>
        cases l with
        | nil =>
          rw [hc] at hm2in
          rw [List.mem_singleton] at hm2in
          rw [hm2in]
        | cons b l2 => rw [hc] at hile; simp at hile
    refine ⟨?_, ?_, ?_⟩
    · rw [hM3, activeRowsFor_upsertRows, hrows]
      simp
    · rw [hM3]; exact pairUniqueB_upsertRows hu2
    · rw [hM3, length_upsertRows, hM2, length_removedRows]
  · exfalso
    obtain ⟨m2, hm2mem, hm2p⟩ := hex2
    rw [List.any_eq_false] at hany3
    exact absurd hm2p (by simpa using hany3 m2 hm2mem)

/-- C2 witness: the concrete add/remove/re-add run on the base state, ending
with exactly one active member-tier row and the constraint intact. -/
theorem add_remove_add_single_active_member_row_witness :
    pairUniqueB wDB.team_members = true ∧
    addMember wDB (some "t1") (some "u1") (some "manager") (some adminActor)
      = .ok (wMemberRow "manager" none, wDB1) ∧
    removeMember wDB1 (some "t1") (some "u1") (some adminActor)
      = .ok (wMemberRow "manager" (some 5), wDB2) ∧
    addMember wDB2 (some "t1") (some "u1") (some "member") (some adminActor)
      = .ok (wMemberRow "member" none, wDB3) ∧
    ((activeRowsFor wDB3.team_members "t1" "u1").map (fun m => m.role) = ["member"] ∧
     pairUniqueB wDB3.team_members = true ∧
     wDB3.team_members.length = wDB1.team_members.length) :=
  ⟨by decide, by decide, by decide, by decide,
   add_remove_add_single_active_member_row wDB "t1" "u1" (some adminActor)
     (wMemberRow "manager" none) (wMemberRow "manager" (some 5)) (wMemberRow "member" none)
     wDB1 wDB2 wDB3 (by decide) (by decide) (by decide) (by decide)⟩

theorem memberSignal_iff {db : DB} {u t : String}
    (hm : pairUniqueB db.team_members = true) :
    memberSignal db (some u) (some t) = true ↔
      ∃ m ∈ db.team_members, m.team_id = t ∧ m.user_id = u ∧
        m.removed_at = none ∧ roleIsManagerial m.role = true := by
  rw [memberSignal, memberLookup]
  constructor
  · intro h
    cases hf : db.team_members.find? (fun m =>
        some m.team_id == some t && some m.user_id == some u && m.removed_at == none) with
    | none => rw [hf] at h; cases h
    | some m =>
      rw [hf] at h
      have hp := List.find?_some hf
      have hmem := List.mem_of_find?_eq_some hf
      simp only [Bool.and_eq_true, beq_iff_eq, Option.some_inj] at hp
      exact ⟨m, hmem, hp.1.1, hp.1.2, hp.2, h⟩
  · rintro ⟨m, hmem, hteam, huser, hrem, hrole⟩
    cases hf : db.team_members.find? (fun m =>
        some m.team_id == some t && some m.user_id == some u && m.removed_at == none) with
    | none =>
      rw [List.find?_eq_none] at hf
      exact absurd (show (some m.team_id == some t && some m.user_id == some u
          && m.removed_at == none) = true by simp [hteam, huser, hrem])
        (by simpa using hf m hmem)
    | some m' =>
      show roleIsManagerial m'.role = true
      have hp' := List.find?_some hf
      have hmem' := List.mem_of_find?_eq_some hf
      simp only [Bool.and_eq_true, beq_iff_eq, Option.some_inj] at hp'
      have h1 : m' ∈ rowsFor db.team_members t u := by
        rw [rowsFor, List.mem_filter]
        exact ⟨hmem', by simp [pairMatches, hp'.1.1, hp'.1.2]⟩
      have h2 : m ∈ rowsFor db.team_members t u := by
        rw [rowsFor, List.mem_filter]
        exact ⟨hmem, by simp [pairMatches, hteam, huser]⟩
      rw [eq_of_mem_of_length_le_one (rowsFor_length_le_one hm) h1 h2]
      exact hrole

theorem assignmentSignal_iff {db : DB} {u t : String}
    (ha : (activeAssignsFor db.role_assignments t u).length ≤ 1) :
    assignmentSignal db (some u) (some t) = true ↔
      ∃ a ∈ db.role_assignments, a.team_id = some t ∧ a.user_id = u ∧
        a.revoked_at = none ∧ roleIsManagerial a.role_name = true := by
  rw [assignmentSignal, assignmentLookup]
  constructor
  · intro h
    cases hf : db.role_assignments.find? (fun a =>
        a.team_id == some t && some a.user_id == some u && a.revoked_at == none) with
    | none => rw [hf] at h; cases h
    | some a =>
      rw [hf] at h
      have hp := List.find?_some hf
      have hmem := List.mem_of_find?_eq_some hf
      simp only [Bool.and_eq_true, beq_iff_eq, Option.some_inj] at hp
      exact ⟨a, hmem, hp.1.1, hp.1.2, hp.2, h⟩
  · rintro ⟨a, hmem, hteam, huser, hrev, hrole⟩
    cases hf : db.role_assignments.find? (fun a =>
        a.team_id == some t && some a.user_id == some u && a.revoked_at == none) with
    | none =>
      rw [List.find?_eq_none] at hf
      exact absurd (show (a.team_id == some t && some a.user_id == some u
          && a.revoked_at == none) = true by simp [hteam, huser, hrev])
        (by simpa using hf a hmem)
    | some a' =>
      show roleIsManagerial a'.role_name = true
      have hp' := List.find?_some hf
      have hmem' := List.mem_of_find?_eq_some hf
      simp only [Bool.and_eq_true, beq_iff_eq, Option.some_inj] at hp'
      have h1 : a' ∈ activeAssignsFor db.role_assignments t u := by
        rw [activeAssignsFor, List.mem_filter]
        exact ⟨hmem', by simp [hp'.1.1, hp'.1.2, hp'.2]⟩
      have h2 : a ∈ activeAssignsFor db.role_assignments t u := by
        rw [activeAssignsFor, List.mem_filter]
        exact ⟨hmem, by simp [hteam, huser, hrev]⟩
      rw [eq_of_mem_of_length_le_one ha h1 h2]
      exact hrole

/-- C5: isTeamManagerOrAdmin returns false for every state when either id is
empty or undefined (so the answer does not consult storage), and on real ids
— in a state where each signal is unique per pair, as the schema guarantees
for memberships — it returns true iff the active membership row for
(teamId, userId) has a manager/admin role tier, or the pair's active
role-assignment signal (the second authority path) names manager/admin,
honoring either signal.  The function consumes the state and returns a
boolean, performing no writes. -/
theorem isTeamManagerOrAdmin_spec (db : DB) :
    (∀ userId teamId : Jid, truthy userId = false ∨ truthy teamId = false →
      isTeamManagerOrAdmin db userId teamId = false) ∧
    (∀ u t : String, u ≠ "" → t ≠ "" →
      pairUniqueB db.team_members = true →
      (activeAssignsFor db.role_assignments t u).length ≤ 1 →
      (isTeamManagerOrAdmin db (some u) (some t) = true ↔
        ((∃ m ∈ db.team_members, m.team_id = t ∧ m.user_id = u ∧
            m.removed_at = none ∧ roleIsManagerial m.role = true) ∨
         (∃ a ∈ db.role_assignments, a.team_id = some t ∧ a.user_id = u ∧
            a.revoked_at = none ∧ roleIsManagerial a.role_name = true)))) := by
  constructor
  · intro userId teamId h
    rcases h with h | h <;> simp [isTeamManagerOrAdmin, h]
  · intro u t hu ht hm ha
    have hcond : (!(truthy (some u)) || !(truthy (some t))) = false := by
      simp [truthy, hu, ht]
    rw [isTeamManagerOrAdmin, hcond]
    simp only [Bool.false_eq_true, if_false]
    cases hms : memberSignal db (some u) (some t) with
    | true =>
      simp only [if_true]
      constructor
      · intro _
        exact Or.inl ((memberSignal_iff hm).mp hms)
      · intro _
        trivial
    | false =>
      simp only [Bool.false_eq_true, if_false]
      constructor
      · intro h
        exact Or.inr ((assignmentSignal_iff ha).mp h)
      · rintro (h | h)
        · exact absurd ((memberSignal_iff hm).mpr h) (by rw [hms]; exact Bool.false_ne_true)
        · exact (assignmentSignal_iff ha).mpr h

/-- C5 witness: in a state where u1 is an active manager of t1, the theorem
applies and the iff holds with the membership signal as the left disjunct. -/
theorem isTeamManagerOrAdmin_spec_witness :
    pairUniqueB managerDB.team_members = true ∧
    (isTeamManagerOrAdmin managerDB (some "u1") (some "t1") = true ↔
      ((∃ m ∈ managerDB.team_members, m.team_id = "t1" ∧ m.user_id = "u1" ∧
          m.removed_at = none ∧ roleIsManagerial m.role = true) ∨
       (∃ a ∈ managerDB.role_assignments, a.team_id = some "t1" ∧ a.user_id = "u1" ∧
          a.revoked_at = none ∧ roleIsManagerial a.role_name = true))) :=
  ⟨by decide,
   (isTeamManagerOrAdmin_spec managerDB).2 "u1" "t1" (by decide) (by decide)
     (by decide) (by decide)⟩

theorem teamIdsFor_length_le_one {l : List TeamRow} {i : String}
    (h : teamIdsUniqueB l = true) :
    (l.filter (fun x => x.id == i)).length ≤ 1 := by
  induction l with
  | nil => simp
  | cons tm rest ih =>
    simp only [teamIdsUniqueB, Bool.and_eq_true, List.all_eq_true] at h
    obtain ⟨hall, hrest⟩ := h
    rw [List.filter_cons]
    by_cases hm : (tm.id == i) = true
    · have hnil : rest.filter (fun x => x.id == i) = [] := by
        rw [List.filter_eq_nil_iff]
        intro x hx hpx
        have h1 := hall x hx
        rw [beq_iff_eq] at hpx hm
        rw [Bool.not_eq_true', beq_eq_false_iff_ne] at h1
        exact h1 (hpx.trans hm.symm)
      simp [hm, hnil]
    · simp only [hm, if_false]
      exact ih hrest

/-- C8: for every team row that is not soft-deleted (given the primary-key
uniqueness of team ids), getTeamById succeeds for any global-admin caller and
returns that row; and whenever every stored row for an id is soft-deleted —
in particular for an absent id — getTeamById fails with 404 NotFound for
every caller. -/
theorem getTeamById_spec (db : DB) :
    (∀ T ∈ db.teams, T.archived_at = none → T.id ≠ "" →
      teamIdsUniqueB db.teams = true →
      ∀ user : Option Actor, isGlobalAdmin user = true →
        getTeamById db (some T.id) user = .ok T) ∧
    (∀ t : String, t ≠ "" →
      (∀ T ∈ db.teams, T.id = t → T.archived_at ≠ none) →
      ∀ user : Option Actor,
        getTeamById db (some t) user = .error (.api 404 .teamNotFound)) := by
  constructor
  · intro T hT harch hid huniq user hadmin
    have hfind : findActiveTeam db T.id = some T := by
      rw [findActiveTeam]
      cases hf : db.teams.find? (fun tm => tm.id == T.id && tm.archived_at == none) with
      | none =>
        exfalso
        rw [List.find?_eq_none] at hf
        exact absurd (show (T.id == T.id && T.archived_at == none) = true by
          simp [harch]) (by simpa using hf T hT)
      | some T' =>
        have hp := List.find?_some hf
        have hmem := List.mem_of_find?_eq_some hf
        rw [Bool.and_eq_true] at hp
        have f1 : T' ∈ db.teams.filter (fun x => x.id == T.id) := by
          rw [List.mem_filter]; exact ⟨hmem, hp.1⟩
        have f2 : T ∈ db.teams.filter (fun x => x.id == T.id) := by
          rw [List.mem_filter]; exact ⟨hT, by simp⟩
        rw [eq_of_mem_of_length_le_one (teamIdsFor_length_le_one huniq) f1 f2]
    simp only [getTeamById]
    rw [if_neg (by simp [hid])]
    rw [hfind, hadmin]
    simp
  · intro t ht hall user
    have hfind : findActiveTeam db t = none := by
      rw [findActiveTeam, List.find?_eq_none]
      intro x hx hpx
      rw [Bool.and_eq_true, beq_iff_eq, beq_iff_eq] at hpx
      exact hall x hx hpx.1 hpx.2
    simp only [getTeamById]
    rw [if_neg (by simp [ht])]
    rw [hfind]

/-- C8 witness: in a state with an active team t1 and an archived team t2, a
global admin gets t1 back, and t2 is 404 for an unauthenticated caller. -/
theorem getTeamById_spec_witness :
    teamIdsUniqueB archDB.teams = true ∧
    getTeamById archDB (some "t1") (some adminActor) = .ok wTeam ∧
    getTeamById archDB (some "t2") none = .error (.api 404 .teamNotFound) :=
  ⟨by decide,
   (getTeamById_spec archDB).1 wTeam (by decide) (by decide) (by decide)
     (by decide) (some adminActor) (by decide),
   (getTeamById_spec archDB).2 "t2" (by decide) (by decide) none⟩

/-- C6: for a real team id and an actor passing the canManage gate, if an
active team with that id exists the first archiveTeam succeeds and returns
the record with the soft-delete timestamp set, and a second archiveTeam on
the resulting state fails with 404 NotFound rather than succeeding
idempotently; archiving an id no team carries also fails with 404. -/
theorem archiveTeam_spec (db : DB) (t : String) (actor : Option Actor)
    (ht : t ≠ "") (hcm : canManage db actor (some t) = true) :
    ((∃ T ∈ db.teams, T.id = t ∧ T.archived_at = none) →
      ∃ r db', archiveTeam db (some t) actor = .ok (r, db') ∧
        r.archived_at = some db.now ∧
        archiveTeam db' (some t) actor
          = .error (.api 404 .teamNotFoundOrArchived)) ∧
    ((∀ T ∈ db.teams, T.id ≠ t) →
      archiveTeam db (some t) actor = .error (.api 404 .teamNotFoundOrArchived)) := by
  constructor
  · rintro ⟨T, hT, hid, harch⟩
    have hsome : ∃ T', findActiveTeam db t = some T' := by
      cases hf : findActiveTeam db t with
      | none =>
        exfalso
        rw [findActiveTeam, List.find?_eq_none] at hf
        exact absurd (show (T.id == t && T.archived_at == none) = true by
          simp [hid, harch]) (by simpa using hf T hT)
      | some T' => exact ⟨T', rfl⟩
    obtain ⟨T', hf⟩ := hsome
    simp only [archiveTeam]
    rw [if_neg (by simp [ht])]
    rw [hcm]
    simp only [Bool.not_true, Bool.false_eq_true, if_false]
    rw [hf]
    refine ⟨_, _, rfl, rfl, ?_⟩
    have hcm2 : canManage
        { db with teams := db.teams.map fun tm =>
            if tm.id == t && tm.archived_at == none then
              { tm with archived_at := some db.now, updated_at := db.now }
            else tm }
        actor (some t) = true := by
      rw [canManage_congr rfl rfl]
      exact hcm
    simp only [archiveTeam]
    rw [if_neg (by simp [ht])]
    rw [hcm2]
    simp only [Bool.not_true, Bool.false_eq_true, if_false]
    have hfind2 : findActiveTeam
        { db with teams := db.teams.map fun tm =>
            if tm.id == t && tm.archived_at == none then
              { tm with archived_at := some db.now, updated_at := db.now }
            else tm }
        t = none := by
      rw [findActiveTeam, List.find?_eq_none]
      intro x hx hpx
      simp only [List.mem_map] at hx
      obtain ⟨y, hy, rfl⟩ := hx
      by_cases hc : (y.id == t && y.archived_at == none) = true
      · rw [if_pos hc] at hpx
        simp at hpx
      · rw [if_neg hc] at hpx
        exact absurd hpx (by simpa using hc)
    rw [hfind2]
  · intro hall
    have hnone : findActiveTeam db t = none := by
      rw [findActiveTeam, List.find?_eq_none]
      intro x hx hpx
      rw [Bool.and_eq_true, beq_iff_eq] at hpx
      exact hall x hx hpx.1
    simp only [archiveTeam]
    rw [if_neg (by simp [ht])]
    rw [hcm]
    simp only [Bool.not_true, Bool.false_eq_true, if_false]
    rw [hnone]

/-- C6 witness: archiving the concrete active team t1 as a global admin
succeeds with the timestamp set, and archiving again is 404. -/
theorem archiveTeam_spec_witness :
    canManage wDB (some adminActor) (some "t1") = true ∧
    (∃ r db', archiveTeam wDB (some "t1") (some adminActor) = .ok (r, db') ∧
      r.archived_at = some wDB.now ∧
      archiveTeam db' (some "t1") (some adminActor)
        = .error (.api 404 .teamNotFoundOrArchived)) :=
  ⟨by decide,
   (archiveTeam_spec wDB "t1" (some adminActor) (by decide) (by decide)).1
     ⟨wTeam, by decide, by decide, by decide⟩⟩

theorem findActiveTeam_eq_some {db : DB} {T : TeamRow} {t : String}
    (hT : T ∈ db.teams) (hid : T.id = t) (harch : T.archived_at = none)
    (huniq : teamIdsUniqueB db.teams = true) :
    findActiveTeam db t = some T := by
  rw [findActiveTeam]
  cases hf : db.teams.find? (fun tm => tm.id == t && tm.archived_at == none) with
  | none =>
    exfalso
    rw [List.find?_eq_none] at hf
    exact absurd (show (T.id == t && T.archived_at == none) = true by
      simp [hid, harch]) (by simpa using hf T hT)
  | some T' =>
    have hp := List.find?_some hf
    have hmem := List.mem_of_find?_eq_some hf
    rw [Bool.and_eq_true] at hp
    have f1 : T' ∈ db.teams.filter (fun x => x.id == t) := by
      rw [List.mem_filter]; exact ⟨hmem, hp.1⟩
    have f2 : T ∈ db.teams.filter (fun x => x.id == t) := by
      rw [List.mem_filter]; exact ⟨hT, by simp [hid]⟩
    rw [eq_of_mem_of_length_le_one (teamIdsFor_length_le_one huniq) f1 f2]

/-- C9: with a managing actor, a name that trims to fewer than 2 characters
and a string-valued description, updateTeam on an active team succeeds and
updates only the description — the returned record keeps the stored name and
carries the new description, and the state rewrites only the description —
while the 400 ValidationError arises (only) when no field at all is valid to
apply, i.e. with the same invalid name and no description. -/
theorem updateTeam_invalid_name_spec (db : DB) (t n d : String)
    (user : Option Actor)
    (ht : t ≠ "") (hcm : canManage db user (some t) = true)
    (hn : (jsTrim n).length < 2) :
    (∀ T ∈ db.teams, T.id = t → T.archived_at = none →
      teamIdsUniqueB db.teams = true →
      updateTeam db (some t) (some n) (some d) user
        = .ok ({ T with description := some d, updated_at := db.now },
          { db with teams := db.teams.map fun tm =>
              if tm.id == t && tm.archived_at == none then
                { tm with description := some d, updated_at := db.now }
              else tm })) ∧
    updateTeam db (some t) (some n) none user
      = .error (.api 400 .noValidFields) := by
  have hen : effectiveNewName (some n) = none := by
    rw [effectiveNewName]
    rw [if_neg (by omega)]
  constructor
  · intro T hT hid harch huniq
    have hfind := findActiveTeam_eq_some hT hid harch huniq
    simp only [updateTeam]
    rw [if_neg (by simp [ht])]
    rw [hcm]
    simp only [Bool.not_true, Bool.false_eq_true, if_false]
    rw [hen]
    rw [if_neg (by simp)]
    rw [hfind]
    rfl
  · simp only [updateTeam]
    rw [if_neg (by simp [ht])]
    rw [hcm]
    simp only [Bool.not_true, Bool.false_eq_true, if_false]
    rw [hen]
    rfl

/-- C9 witness: updating t1 with the too-short name "A" and description
"newdesc" keeps the name Core and stores the description; the same call
without a description is a 400. -/
theorem updateTeam_invalid_name_spec_witness :
    canManage wDB (some adminActor) (some "t1") = true ∧
    (jsTrim "A").length < 2 ∧
    updateTeam wDB (some "t1") (some "A") (some "newdesc") (some adminActor)
      = .ok ({ wTeam with description := some "newdesc", updated_at := 5 },
        { wDB with teams := [{ wTeam with description := some "newdesc", updated_at := 5 }] }) ∧
    updateTeam wDB (some "t1") (some "A") none (some adminActor)
      = .error (.api 400 .noValidFields) :=
  ⟨by decide, by decide,
   (updateTeam_invalid_name_spec wDB "t1" "A" "newdesc" (some adminActor)
     (by decide) (by decide) (by decide)).1 wTeam (by decide) (by decide)
     (by decide) (by decide),
   (updateTeam_invalid_name_spec wDB "t1" "A" "newdesc" (some adminActor)
     (by decide) (by decide) (by decide)).2⟩

/-- C3 counterexample: when the creator-membership statement fails and the
ROLLBACK statement itself also fails, the source's catch block — an unguarded
`await client.query('ROLLBACK'); throw err;` — rejects at the ROLLBACK, so
the rollback failure, not the original error, is what reaches the caller
(and nothing is logged), contrary to the claim that a rollback failure is
absorbed and the original error propagates. -/
theorem createTeam_rollback_failure_ce :
    createTeam wDB (some "Eng") none (some adminActor)
        (some (JsErr.storage .fkUserViolation))
        (some (JsErr.storage .nullUserViolation))
      = (.error (.storage .nullUserViolation), wDB) ∧
    JsErr.storage ErrKind.nullUserViolation ≠ JsErr.storage ErrKind.fkUserViolation :=
  ⟨by decide, by decide⟩

/-- C3 (amended): createTeam runs the team insert and the creator's
manager-tier membership upsert in one transaction.  When the membership
statement fails and the rollback statement succeeds, the original error is
what propagates and the state is returned unchanged (full rollback); on a
successful run the created team exists in the resulting state together with
an active manager-tier membership row for the creator, so no team ever
exists without its creator's membership.  When the rollback itself fails,
however, the rollback error replaces the original one (see the
counterexample). -/
theorem createTeam_transaction_spec (db : DB) (n : String) (desc : Option String)
    (a : Actor) (e : JsErr)
    (hadmin : isGlobalAdmin (some a) = true)
    (hname : 2 ≤ (jsTrim n).length) :
    createTeam db (some n) desc (some a) (some e) none = (.error e, db) ∧
    (∀ team db', createTeam db (some n) desc (some a) none none = (.ok team, db') →
      team ∈ db'.teams ∧
      ∃ m ∈ db'.team_members, m.team_id = team.id ∧ some m.user_id = a.sub ∧
        m.role = "manager" ∧ m.removed_at = none) := by
  constructor
  · simp only [createTeam, hadmin, Bool.not_true, Bool.false_eq_true, if_false]
    rw [if_neg (by omega)]
  · intro team db' h
    obtain ⟨-, hex⟩ := createTeam_ok h
    obtain ⟨n', -, -, -, r, hup⟩ := hex
    cases hsub : a.sub with
    | none =>
      rw [hsub] at hup
      simp [upsertMemberRow] at hup
    | some s =>
      rw [hsub] at hup
      obtain ⟨-, -, hteams, -, -, -, -, -⟩ := upsertMemberRow_ok hup
      refine ⟨?_, ?_⟩
      · rw [hteams]; simp
      · obtain ⟨m, hm, hp, hrole, hrem⟩ := upsertMemberRow_pair_row hup
        rw [pairMatches, Bool.and_eq_true, beq_iff_eq, beq_iff_eq] at hp
        exact ⟨m, hm, hp.1, by rw [hp.2], hrole, hrem⟩

/-- C3 witness: a concrete failing membership statement with a healthy
rollback propagates the original error with the state unchanged, and the
concrete successful run satisfies the creator-membership guarantee. -/
theorem createTeam_transaction_spec_witness :
    isGlobalAdmin (some adminActor) = true ∧
    createTeam wDB (some "Eng") none (some adminActor)
        (some (JsErr.storage .fkUserViolation)) none
      = (.error (.storage .fkUserViolation), wDB) ∧
    (∀ team db', createTeam wDB (some "Eng") none (some adminActor) none none
        = (.ok team, db') →
      team ∈ db'.teams ∧
      ∃ m ∈ db'.team_members, m.team_id = team.id ∧ some m.user_id = adminActor.sub ∧
        m.role = "manager" ∧ m.removed_at = none) :=
  ⟨by decide,
   (createTeam_transaction_spec wDB "Eng" none adminActor
     (JsErr.storage .fkUserViolation) (by decide) (by decide)).1,
   (createTeam_transaction_spec wDB "Eng" none adminActor
     (JsErr.storage .fkUserViolation) (by decide) (by decide)).2⟩

/-- C7: immediately after createTeam succeeds for an actor whose subject id
is s and who exists in the users table, the creator holds team authority —
isTeamManagerOrAdmin(s, team.id) is true on the resulting state — and
listMembers(team.id) for that (global-admin) creator succeeds and lists the
creator at manager tier. -/
theorem createTeam_creator_authority (db : DB) (name desc : Option String)
    (a : Actor) (s : String) (team : TeamRow) (db' : DB)
    (hsub : a.sub = some s)
    (husr : db.users.any (fun x => x.id == s) = true)
    (h : createTeam db name desc (some a) none none = (.ok team, db')) :
    isTeamManagerOrAdmin db' (some s) (some team.id) = true ∧
    ∃ ms, listMembers db' (some team.id) (some a) = .ok ms ∧
      ∃ m ∈ ms, m.user_id = s ∧ m.role = "manager" := by
  obtain ⟨hadmin, n, hn, hlen, hteamEq, r, hup⟩ := createTeam_ok h
  rw [hsub] at hup
  obtain ⟨htid, hsne, hteams, hassign, husers, -, -, -⟩ := upsertMemberRow_ok hup
  have hall := upsertMemberRow_all_pair_rows hup
  have hpair := upsertMemberRow_pair_row hup
  obtain ⟨m0, hm0, hp0, hrole0, hrem0⟩ := hpair
  have hp0x : m0.team_id = team.id ∧ m0.user_id = s := by
    simpa [pairMatches] using hp0
  constructor
  · have hms : memberSignal db' (some s) (some team.id) = true := by
      rw [memberSignal, memberLookup]
      cases hf : db'.team_members.find? (fun m =>
          some m.team_id == some team.id && some m.user_id == some s &&
            m.removed_at == none) with
      | none =>
        exfalso
        rw [List.find?_eq_none] at hf
        exact absurd (show (some m0.team_id == some team.id &&
            some m0.user_id == some s && m0.removed_at == none) = true by
          simp [hp0x.1, hp0x.2, hrem0]) (by simpa using hf m0 hm0)
      | some m1 =>
        show roleIsManagerial m1.role = true
        have hpm1 := List.find?_some hf
        have hmm1 := List.mem_of_find?_eq_some hf
        simp only [Bool.and_eq_true, beq_iff_eq, Option.some_inj] at hpm1
        have hpair1 : pairMatches team.id s m1 = true := by
          simp [pairMatches, hpm1.1.1, hpm1.1.2]
        rw [(hall m1 hmm1 hpair1).1]
        decide
    rw [isTeamManagerOrAdmin]
    rw [if_neg (by simp [truthy, hsne, htid])]
    rw [hms]
    simp
  · have husers2 : db'.users = db.users := husers
    simp only [listMembers]
    rw [if_neg (by simp [htid])]
    rw [hadmin]
    simp only [if_true]
    refine ⟨memberViews db' team.id, rfl, ?_⟩
    cases hfu : db.users.find? (fun x => x.id == s) with
    | none =>
      exfalso
      rw [List.find?_eq_none] at hfu
      obtain ⟨x, hx, hpx⟩ := List.any_eq_true.mp husr
      exact absurd hpx (by simpa using hfu x hx)
    | some usr =>
      refine ⟨{ user_id := m0.user_id, name := usr.name, email := usr.email,
                role := m0.role, created_at := m0.created_at,
                updated_at := m0.updated_at }, ?_, ?_, ?_⟩
      · rw [memberViews, List.mem_filterMap]
        refine ⟨m0, ?_, ?_⟩
        · rw [mem_sortMembersByCreatedAsc, List.mem_filter]
          exact ⟨hm0, by simp [hp0x.1, hrem0]⟩
        · rw [hp0x.2, husers2, hfu]
          rfl
      · exact hp0x.2
      · exact hrole0

/-- C7 witness: the concrete createTeam run by the admin creator yields a
team whose creator immediately passes the authority check and appears in
listMembers at manager tier. -/
theorem createTeam_creator_authority_witness :
    createTeam wDB (some "Eng") none (some adminActor) none none
      = (.ok wTeam7, wDB7) ∧
    (isTeamManagerOrAdmin wDB7 (some "u-admin") (some wTeam7.id) = true ∧
     ∃ ms, listMembers wDB7 (some wTeam7.id) (some adminActor) = .ok ms ∧
       ∃ m ∈ ms, m.user_id = "u-admin" ∧ m.role = "manager") :=
  ⟨by decide,
   createTeam_creator_authority wDB (some "Eng") none adminActor "u-admin"
     wTeam7 wDB7 rfl (by decide) (by decide)⟩
